import Mathlib

/-!
# Verification of the qthreadpool benchmark programs

Shallow embedding of the two program variants (`src/main.cc` and the Qt
variant) that benchmark a parallel streaming reduction.  Machine doubles
are modelled by exact rationals; the natural logarithm and the exponential
are abstract parameters `lg ex : ℚ → ℚ`, so statements about the
product-style metric hold for every interpretation of `log`/`exp`.
Concurrency is modelled by the deterministic merge order of the tasks: every
per-field merge operation is associative and commutative over the exact
model, so the fold over partitions in task order represents every
interleaving of the mutex-protected merges.
-/

/-- The accumulator record shared by the local (per-task) and global state:
`local_log_sum` / `global_log_sum`, `local_sum` / `global_sum`,
`local_diff_sum` / `global_diff_sum`, the `has_zero` flag and the element
count, as in class `StatsTask` of both variants. -/
structure Accum where
  logSum : ℚ
  sum : ℚ
  diffSum : ℚ
  hasZero : Bool
  count : ℕ
deriving DecidableEq, Repr

/-- The all-zero initial accumulator (`0.0, 0.0, 0.0, false, 0`). -/
def Accum.zero : Accum := ⟨0, 0, 0, false, 0⟩

/-- The mutex-protected merge of a local accumulator `l` into the global
accumulator `g` (lines 50-55 of `src/main.cc`): add the three sums and the
count, OR the zero flag. -/
def Accum.merge (g l : Accum) : Accum :=
  { logSum := g.logSum + l.logSum
    sum := g.sum + l.sum
    diffSum := g.diffSum + l.diffSum
    hasZero := g.hasZero || l.hasZero
    count := g.count + l.count }

/-- One iteration of the loop body of `StatsTask::computeMetrics` at index
`i`: read `val = data[i]`; if `val == 0` set the zero flag, else add
`lg |val|` to the log-sum; then add `val` to the sum, `val - i` to the
diff-sum and bump the count. -/
def stepAcc (lg : ℚ → ℚ) (data : List ℚ) (a : Accum) (i : ℕ) : Accum :=
  let val := data.getD i 0
  { logSum := if val = 0 then a.logSum else a.logSum + lg |val|
    sum := a.sum + val
    diffSum := a.diffSum + (val - (i : ℚ))
    hasZero := a.hasZero || decide (val = 0)
    count := a.count + 1 }

/-- The fold of the task loop over an explicit list of indices. -/
def accOf (lg : ℚ → ℚ) (data : List ℚ) (idxs : List ℕ) : Accum :=
  idxs.foldl (stepAcc lg data) Accum.zero

/-- `StatsTask::computeMetrics` over the half-open range `[start, stop)`:
the `for (int i = start; i < end; ++i)` loop starting from the all-zero
local accumulator. -/
def computeMetrics (lg : ℚ → ℚ) (data : List ℚ) (start stop : ℕ) : Accum :=
  accOf lg data (List.range' start (stop - start))

/-- Effective `(parts, chunk_size)` computed by `divideAndConquer` in
`src/main.cc` (lines 75-85): `parts = splits == 0 ? 1 : 1 << splits`,
`chunk_size = size / parts`; if `chunk_size == 0 || parts > 16` then
`parts = min(size, 16)` and `chunk_size = size / parts`. -/
def dcParamsA (size splits : ℕ) : ℕ × ℕ :=
  let parts := if splits = 0 then 1 else 2 ^ splits
  let chunkSize := size / parts
  if chunkSize = 0 ∨ parts > 16 then
    let parts2 := min size 16
    (parts2, size / parts2)
  else
    (parts, chunkSize)

/-- Effective `(parts, chunk_size)` computed by `divideAndConquer` in the Qt
variant (lines 92-102): same start, but if `chunk_size == 0` then
`parts = size` and `chunk_size = 1`. -/
def dcParamsB (size splits : ℕ) : ℕ × ℕ :=
  let parts := if splits = 0 then 1 else 2 ^ splits
  let chunkSize := size / parts
  if chunkSize = 0 then (size, 1) else (parts, chunkSize)

/-- Effective `(num_threads, chunk_size)` computed by `threadPool` in the Qt
variant (lines 151-155): `chunk_size = size / num_threads`; if
`chunk_size == 0` then `num_threads = size` and `chunk_size = 1`. -/
def tpParams (size numThreads : ℕ) : ℕ × ℕ :=
  let chunkSize := size / numThreads
  if chunkSize = 0 then (size, 1) else (numThreads, chunkSize)

/-- The partition ranges generated by the task-creation loops: partition `i`
is `[i * chunk_size, start + chunk_size)` except the last
(`i == parts - 1`), whose end is `size`. -/
def partitionRanges (size parts chunkSize : ℕ) : List (ℕ × ℕ) :=
  (List.range parts).map fun i =>
    (i * chunkSize, if i = parts - 1 then size else i * chunkSize + chunkSize)

/-- The partition plan of `divideAndConquer` in `src/main.cc`. -/
def dcPlanA (size splits : ℕ) : List (ℕ × ℕ) :=
  partitionRanges size (dcParamsA size splits).1 (dcParamsA size splits).2

/-- The partition plan of `divideAndConquer` in the Qt variant. -/
def dcPlanB (size splits : ℕ) : List (ℕ × ℕ) :=
  partitionRanges size (dcParamsB size splits).1 (dcParamsB size splits).2

/-- The partition plan of `threadPool` in the Qt variant. -/
def tpPlan (size numThreads : ℕ) : List (ℕ × ℕ) :=
  partitionRanges size (tpParams size numThreads).1 (tpParams size numThreads).2

/-- The global accumulator after every task has run and merged: each task
computes its local accumulator over its range and merges it into the global
state; over the exact model the merge is commutative, so the fold in task
order represents every merge interleaving. -/
def globalAcc (lg : ℚ → ℚ) (data : List ℚ) (ranges : List (ℕ × ℕ)) : Accum :=
  ranges.foldl (fun g r => g.merge (computeMetrics lg data r.1 r.2)) Accum.zero

/-- The final metric extraction shared by both executors:
`mode = count > 0 ? diff_sum / count : 0`, `stddev = sum / 2`,
`sum = has_zero ? 0 : exp(log_sum)`. -/
def finalMetrics (ex : ℚ → ℚ) (g : Accum) : ℚ × ℚ × ℚ :=
  ( if g.count > 0 then g.diffSum / (g.count : ℚ) else 0
  , g.sum / 2
  , if g.hasZero then 0 else ex g.logSum )

/-- `divideAndConquer` of `src/main.cc` as a function of the dataset, the
split parameter and the caller-supplied values of the three by-reference
output metrics: empty data short-circuits to `(0,0,0)`; `splits < 0` or
`splits > 32` reports an error and leaves the outputs unchanged; otherwise
the partition tasks run and the final metrics are extracted. -/
def dcRunA (lg ex : ℚ → ℚ) (data : List ℚ) (splits : ℤ)
    (mode0 stddev0 sum0 : ℚ) : ℚ × ℚ × ℚ :=
  if data.isEmpty then (0, 0, 0)
  else if splits < 0 ∨ 32 < splits then (mode0, stddev0, sum0)
  else finalMetrics ex (globalAcc lg data (dcPlanA data.length splits.toNat))

/-- `divideAndConquer` of the Qt variant: as `dcRunA` but the split bound is
`0 ≤ splits ≤ 5`. -/
def dcRunB (lg ex : ℚ → ℚ) (data : List ℚ) (splits : ℤ)
    (mode0 stddev0 sum0 : ℚ) : ℚ × ℚ × ℚ :=
  if data.isEmpty then (0, 0, 0)
  else if splits < 0 ∨ 5 < splits then (mode0, stddev0, sum0)
  else finalMetrics ex (globalAcc lg data (dcPlanB data.length splits.toNat))

/-- `threadPool` of the Qt variant: empty data short-circuits to `(0,0,0)`;
`num_threads < 1` or `num_threads > 32` reports an error and leaves the
outputs unchanged; otherwise one task per partition runs in the pool and,
after `waitForDone`, the final metrics are extracted. -/
def tpRun (lg ex : ℚ → ℚ) (data : List ℚ) (numThreads : ℤ)
    (mode0 stddev0 sum0 : ℚ) : ℚ × ℚ × ℚ :=
  if data.isEmpty then (0, 0, 0)
  else if numThreads < 1 ∨ 32 < numThreads then (mode0, stddev0, sum0)
  else finalMetrics ex (globalAcc lg data (tpPlan data.length numThreads.toNat))

/-- Whether `divideAndConquer` of `src/main.cc` prints its validation error:
the `std::cerr` call is reached exactly when the data is non-empty and the
split parameter is out of `0..32`. -/
def dcReportsErrorA (data : List ℚ) (splits : ℤ) : Bool :=
  !data.isEmpty && (decide (splits < 0) || decide (32 < splits))

/-- Whether `divideAndConquer` of the Qt variant prints its validation
error (bound `0..5`). -/
def dcReportsErrorB (data : List ℚ) (splits : ℤ) : Bool :=
  !data.isEmpty && (decide (splits < 0) || decide (5 < splits))

/-- Whether `threadPool` of the Qt variant prints its validation error
(bound `1..32`). -/
def tpReportsError (data : List ℚ) (numThreads : ℤ) : Bool :=
  !data.isEmpty && (decide (numThreads < 1) || decide (32 < numThreads))

/-- The thread count printed on the console by `main` of `src/main.cc`
(line 151): the raw `d_val` itself. -/
def consoleThreadsA (dVal : ℤ) : ℤ := dVal

/-- The partition count persisted to `results.csv` by `main` of
`src/main.cc` (line 159): `d_val == 0 ? 1 : 1 << d_val`. -/
def csvThreadsA (dVal : ℤ) : ℤ := if dVal = 0 then 1 else 2 ^ dVal.toNat

/-- The thread count both printed and persisted by `main` of the Qt variant
for the divide-and-conquer strategy: `d_val == 0 ? 1 : 1 << d_val`. -/
def reportedThreadsBdc (dVal : ℤ) : ℤ := if dVal = 0 then 1 else 2 ^ dVal.toNat

/-- The thread count both printed and persisted by `main` of the Qt variant
for the thread-pool strategy: the raw `p_val`. -/
def reportedThreadsBtp (pVal : ℤ) : ℤ := pVal

/-- The benchmark harness: run the selected executor `n` times against the
same dataset and parameter, threading the three by-reference metric
variables through the runs; the result is their value after the last run. -/
def benchRuns (run : ℚ × ℚ × ℚ → ℚ × ℚ × ℚ) : ℕ → ℚ × ℚ × ℚ → ℚ × ℚ × ℚ
  | 0, t => t
  | n + 1, t => benchRuns run n (run t)

/-- The flattened index list of a list of half-open ranges. -/
def flatIdx (ranges : List (ℕ × ℕ)) : List ℕ :=
  ranges.flatMap fun r => List.range' r.1 (r.2 - r.1)

/-- Unfolding of `flatIdx` on a cons cell. -/
theorem flatIdx_cons (r : ℕ × ℕ) (rs : List (ℕ × ℕ)) :
    flatIdx (r :: rs) = List.range' r.1 (r.2 - r.1) ++ flatIdx rs := rfl

/-- `flatIdx` distributes over list append. -/
theorem flatIdx_append (xs ys : List (ℕ × ℕ)) :
    flatIdx (xs ++ ys) = flatIdx xs ++ flatIdx ys := by
  simp [flatIdx]

/-- `flatIdx` of a single range. -/
theorem flatIdx_singleton (r : ℕ × ℕ) :
    flatIdx [r] = List.range' r.1 (r.2 - r.1) := by
  simp [flatIdx]

/-- Merging is associative over the exact model. -/
theorem Accum.merge_assoc (a b c : Accum) :
    (a.merge b).merge c = a.merge (b.merge c) := by
  simp [Accum.merge, add_assoc, Bool.or_assoc]

/-- The all-zero accumulator is a right identity for merging. -/
theorem Accum.merge_zero (a : Accum) : a.merge Accum.zero = a := by
  cases a
  simp [Accum.merge, Accum.zero]

/-- The all-zero accumulator is a left identity for merging. -/
theorem Accum.zero_merge (a : Accum) : Accum.zero.merge a = a := by
  cases a
  simp [Accum.merge, Accum.zero]

/-- One loop iteration is the merge of the single-element accumulator. -/
theorem stepAcc_merge (lg : ℚ → ℚ) (data : List ℚ) (a : Accum) (i : ℕ) :
    stepAcc lg data a i = a.merge (stepAcc lg data Accum.zero i) := by
  simp only [stepAcc, Accum.merge, Accum.zero]
  split <;> simp [*]

/-- Folding the task loop from an arbitrary accumulator factors through the
fold from zero. -/
theorem foldl_stepAcc_shift (lg : ℚ → ℚ) (data : List ℚ) (idxs : List ℕ) :
    ∀ a : Accum, idxs.foldl (stepAcc lg data) a = a.merge (accOf lg data idxs) := by
  induction idxs with
  | nil =>
    intro a
    simp [accOf, Accum.merge_zero]
  | cons x xs ih =>
    intro a
    simp only [List.foldl_cons, accOf]
    rw [ih (stepAcc lg data a x), ih (stepAcc lg data Accum.zero x),
      stepAcc_merge lg data a x, Accum.merge_assoc]

/-- The task fold over concatenated index lists is the merge of the folds. -/
theorem accOf_append (lg : ℚ → ℚ) (data : List ℚ) (xs ys : List ℕ) :
    accOf lg data (xs ++ ys) = (accOf lg data xs).merge (accOf lg data ys) := by
  unfold accOf
  rw [List.foldl_append, foldl_stepAcc_shift]
  rfl

/-- Folding merges of mapped accumulators from an arbitrary start factors
through the fold from zero. -/
theorem foldl_mergeMap_shift (f : ℕ × ℕ → Accum) (l : List (ℕ × ℕ)) :
    ∀ a : Accum,
      l.foldl (fun g x => g.merge (f x)) a
        = a.merge (l.foldl (fun g x => g.merge (f x)) Accum.zero) := by
  induction l with
  | nil =>
    intro a
    simp [Accum.merge_zero]
  | cons x xs ih =>
    intro a
    simp only [List.foldl_cons]
    rw [ih (a.merge (f x)), ih (Accum.zero.merge (f x)), Accum.zero_merge,
      Accum.merge_assoc]

/-- The global accumulator over a list of ranges is the task fold over the
flattened index list. -/
theorem globalAcc_eq_accOf (lg : ℚ → ℚ) (data : List ℚ) (ranges : List (ℕ × ℕ)) :
    globalAcc lg data ranges = accOf lg data (flatIdx ranges) := by
  induction ranges with
  | nil => rfl
  | cons r rs ih =>
    unfold globalAcc
    rw [List.foldl_cons, foldl_mergeMap_shift, Accum.zero_merge, flatIdx_cons,
      accOf_append]
    unfold globalAcc at ih
    rw [ih]
    rfl

/-- Chained monotonicity of a boundary function. -/
theorem boundary_chain (b : ℕ → ℕ) :
    ∀ n, (∀ i, i < n → b i ≤ b (i + 1)) → b 0 ≤ b n := by
  intro n
  induction n with
  | zero => intro _; exact le_refl _
  | succ m ih =>
    intro h
    exact le_trans (ih fun i hi => h i (Nat.lt_succ_of_lt hi))
      (h m (Nat.lt_succ_self m))

/-- Flattening consecutive boundary ranges yields one contiguous range. -/
theorem flatIdx_boundaries (b : ℕ → ℕ) :
    ∀ n, (∀ i, i < n → b i ≤ b (i + 1)) →
      flatIdx ((List.range n).map fun i => (b i, b (i + 1)))
        = List.range' (b 0) (b n - b 0) := by
  intro n
  induction n with
  | zero =>
    intro _
    simp [flatIdx]
  | succ m ih =>
    intro h
    have hm : ∀ i, i < m → b i ≤ b (i + 1) := fun i hi => h i (Nat.lt_succ_of_lt hi)
    have h0m : b 0 ≤ b m := boundary_chain b m hm
    have hmm : b m ≤ b (m + 1) := h m (Nat.lt_succ_self m)
    rw [List.range_succ, List.map_append, flatIdx_append, ih hm, List.map_singleton,
      flatIdx_singleton]
    have key := List.range'_append (b 0) (b m - b 0) (b (m + 1) - b m) 1
    have e1 : b 0 + 1 * (b m - b 0) = b m := by omega
    have e2 : b (m + 1) - b m + (b m - b 0) = b (m + 1) - b 0 := by omega
    rw [e1, e2] at key
    exact key

/-- The boundary function underlying a partition plan: boundary `i` is
`i * chunk_size` for `i < parts` and `size` beyond. -/
def boundaryOf (size parts chunkSize i : ℕ) : ℕ :=
  if i < parts then i * chunkSize else size

/-- The partition ranges are exactly the consecutive boundary pairs. -/
theorem partitionRanges_eq_map_boundary (size parts chunkSize : ℕ)
    (h1 : 1 ≤ parts) :
    partitionRanges size parts chunkSize =
      (List.range parts).map fun i =>
        (boundaryOf size parts chunkSize i, boundaryOf size parts chunkSize (i + 1)) := by
  unfold partitionRanges
  apply List.map_congr_left
  intro i hi
  rw [List.mem_range] at hi
  simp only [boundaryOf]
  rw [if_pos hi]
  by_cases h2 : i = parts - 1
  · have h3 : ¬ (i + 1 < parts) := by omega
    rw [if_pos h2, if_neg h3]
  · have h3 : i + 1 < parts := by omega
    rw [if_neg h2, if_pos h3, Nat.succ_mul]

/-- The boundary function of a plan with `parts * chunk_size ≤ size` is
monotone between consecutive indices below `parts`. -/
theorem boundaryOf_mono (size parts chunkSize : ℕ)
    (h3 : parts * chunkSize ≤ size) :
    ∀ i, i < parts →
      boundaryOf size parts chunkSize i ≤ boundaryOf size parts chunkSize (i + 1) := by
  intro i hi
  unfold boundaryOf
  rw [if_pos hi]
  by_cases h2 : i + 1 < parts
  · rw [if_pos h2]
    exact Nat.mul_le_mul_right chunkSize (Nat.le_succ i)
  · rw [if_neg h2]
    exact le_trans (Nat.mul_le_mul_right chunkSize (le_of_lt hi)) h3

/-- Partition correctness: when `1 ≤ parts` and `parts * chunk_size ≤ size`,
the concatenation of the generated ranges' index lists, in partition order,
is exactly `[0, size)` — the ranges are contiguous, non-overlapping and
exhaustive. -/
theorem flatIdx_partitionRanges (size parts chunkSize : ℕ)
    (h1 : 1 ≤ parts) (h3 : parts * chunkSize ≤ size) :
    flatIdx (partitionRanges size parts chunkSize) = List.range size := by
  rw [partitionRanges_eq_map_boundary size parts chunkSize h1,
    flatIdx_boundaries _ parts (boundaryOf_mono size parts chunkSize h3)]
  have hb0 : boundaryOf size parts chunkSize 0 = 0 := by
    unfold boundaryOf
    rw [if_pos (by omega : 0 < parts), Nat.zero_mul]
  have hbp : boundaryOf size parts chunkSize parts = size := by
    unfold boundaryOf
    rw [if_neg (lt_irrefl parts)]
  rw [hb0, hbp, Nat.sub_zero, ← List.range_eq_range']

/-- The length of the flattened index list is the sum of the ranges'
lengths. -/
theorem flatIdx_length (ranges : List (ℕ × ℕ)) :
    (flatIdx ranges).length = ((ranges.map fun r => r.2 - r.1)).sum := by
  simp [flatIdx, List.length_flatMap, Function.comp_def]

/-- With `1 ≤ chunk_size` every generated partition is non-empty. -/
theorem partitionRanges_nonempty (size parts chunkSize : ℕ)
    (h1 : 1 ≤ parts) (h2 : 1 ≤ chunkSize) (h3 : parts * chunkSize ≤ size) :
    ∀ r ∈ partitionRanges size parts chunkSize, r.1 < r.2 := by
  intro r hr
  unfold partitionRanges at hr
  rw [List.mem_map] at hr
  obtain ⟨i, hi, rfl⟩ := hr
  rw [List.mem_range] at hi
  dsimp only
  by_cases hlast : i = parts - 1
  · rw [if_pos hlast]
    subst hlast
    have key : (parts - 1) * chunkSize + chunkSize = parts * chunkSize := by
      cases parts with
      | zero => exact absurd h1 (by simp)
      | succ p => simp [Nat.succ_mul]
    have hlt : (parts - 1) * chunkSize < parts * chunkSize := by
      rw [← key]
      exact Nat.lt_add_of_pos_right h2
    exact lt_of_lt_of_le hlt h3
  · rw [if_neg hlast]
    exact Nat.lt_add_of_pos_right h2

/-- The effective parameters of `divideAndConquer` in `src/main.cc` on a
non-empty dataset: at least one part, at least one element per chunk, and
`parts * chunk_size` within the dataset. -/
theorem dcParamsA_eq (size splits : ℕ) :
    dcParamsA size splits =
      if size / (if splits = 0 then 1 else 2 ^ splits) = 0 ∨
          (if splits = 0 then 1 else 2 ^ splits) > 16 then
        (min size 16, size / min size 16)
      else
        ((if splits = 0 then 1 else 2 ^ splits),
          size / (if splits = 0 then 1 else 2 ^ splits)) := rfl

/-- Zeta-reduced form of `dcParamsB`. -/
theorem dcParamsB_eq (size splits : ℕ) :
    dcParamsB size splits =
      if size / (if splits = 0 then 1 else 2 ^ splits) = 0 then (size, 1)
      else
        ((if splits = 0 then 1 else 2 ^ splits),
          size / (if splits = 0 then 1 else 2 ^ splits)) := rfl

/-- Zeta-reduced form of `tpParams`. -/
theorem tpParams_eq (size numThreads : ℕ) :
    tpParams size numThreads =
      if size / numThreads = 0 then (size, 1)
      else (numThreads, size / numThreads) := rfl

theorem dcParamsA_spec (size splits : ℕ) (h : 1 ≤ size) :
    1 ≤ (dcParamsA size splits).1 ∧ 1 ≤ (dcParamsA size splits).2 ∧
      (dcParamsA size splits).1 * (dcParamsA size splits).2 ≤ size := by
  have hP : 1 ≤ (if splits = 0 then 1 else 2 ^ splits) := by
    split
    · exact le_refl 1
    · exact Nat.one_le_two_pow
  rw [dcParamsA_eq]
  by_cases hc : size / (if splits = 0 then 1 else 2 ^ splits) = 0 ∨
      (if splits = 0 then 1 else 2 ^ splits) > 16
  · rw [if_pos hc]
    refine ⟨?_, ?_, ?_⟩
    · show 1 ≤ min size 16
      omega
    · show 1 ≤ size / min size 16
      rw [Nat.one_le_div_iff (by omega : 0 < min size 16)]
      omega
    · show min size 16 * (size / min size 16) ≤ size
      rw [mul_comm]
      exact Nat.div_mul_le_self size (min size 16)
  · rw [if_neg hc]
    push_neg at hc
    refine ⟨hP, ?_, ?_⟩
    · show 1 ≤ size / (if splits = 0 then 1 else 2 ^ splits)
      exact Nat.one_le_iff_ne_zero.mpr hc.1
    · show (if splits = 0 then 1 else 2 ^ splits) *
          (size / (if splits = 0 then 1 else 2 ^ splits)) ≤ size
      rw [mul_comm]
      exact Nat.div_mul_le_self size _

theorem dcParamsB_spec (size splits : ℕ) (h : 1 ≤ size) :
    1 ≤ (dcParamsB size splits).1 ∧ 1 ≤ (dcParamsB size splits).2 ∧
      (dcParamsB size splits).1 * (dcParamsB size splits).2 ≤ size := by
  have hP : 1 ≤ (if splits = 0 then 1 else 2 ^ splits) := by
    split
    · exact le_refl 1
    · exact Nat.one_le_two_pow
  rw [dcParamsB_eq]
  by_cases hc : size / (if splits = 0 then 1 else 2 ^ splits) = 0
  · rw [if_pos hc]
    exact ⟨h, le_refl 1, by omega⟩
  · rw [if_neg hc]
    refine ⟨hP, Nat.one_le_iff_ne_zero.mpr hc, ?_⟩
    show (if splits = 0 then 1 else 2 ^ splits) *
        (size / (if splits = 0 then 1 else 2 ^ splits)) ≤ size
    rw [mul_comm]
    exact Nat.div_mul_le_self size _

theorem tpParams_spec (size numThreads : ℕ) (h : 1 ≤ size) (hn : 1 ≤ numThreads) :
    1 ≤ (tpParams size numThreads).1 ∧ 1 ≤ (tpParams size numThreads).2 ∧
      (tpParams size numThreads).1 * (tpParams size numThreads).2 ≤ size := by
  rw [tpParams_eq]
  by_cases hc : size / numThreads = 0
  · rw [if_pos hc]
    exact ⟨h, le_refl 1, by omega⟩
  · rw [if_neg hc]
    refine ⟨hn, Nat.one_le_iff_ne_zero.mpr hc, ?_⟩
    show numThreads * (size / numThreads) ≤ size
    rw [mul_comm]
    exact Nat.div_mul_le_self size numThreads

/-- On an empty dataset the `main.cc` planner produces zero parts. -/
theorem dcParamsA_zero (splits : ℕ) : dcParamsA 0 splits = (0, 0) := by
  rw [dcParamsA_eq]
  simp

/-- On an empty dataset the Qt divide-and-conquer planner produces zero
parts. -/
theorem dcParamsB_zero (splits : ℕ) : dcParamsB 0 splits = (0, 1) := by
  rw [dcParamsB_eq]
  simp

/-- On an empty dataset the thread-pool planner produces zero parts. -/
theorem tpParams_zero (numThreads : ℕ) : tpParams 0 numThreads = (0, 1) := by
  rw [tpParams_eq]
  simp

/-- Zero parts plan no partitions at all. -/
theorem partitionRanges_zero_parts (size chunkSize : ℕ) :
    partitionRanges size 0 chunkSize = [] := rfl

/-- The sequential single-threaded fold over the entire dataset in element
order: one `computeMetrics` task covering `[0, N)`. -/
def seqAcc (lg : ℚ → ℚ) (data : List ℚ) : Accum :=
  computeMetrics lg data 0 data.length

/-- Master refinement lemma: for any plan with `1 ≤ parts` and
`parts * chunk_size ≤ N`, the merged global accumulator equals the
sequential fold over the whole dataset. -/
theorem globalAcc_partition_eq_seq (lg : ℚ → ℚ) (data : List ℚ)
    (parts chunkSize : ℕ) (h1 : 1 ≤ parts)
    (h3 : parts * chunkSize ≤ data.length) :
    globalAcc lg data (partitionRanges data.length parts chunkSize) =
      seqAcc lg data := by
  rw [globalAcc_eq_accOf, flatIdx_partitionRanges _ _ _ h1 h3]
  unfold seqAcc computeMetrics
  rw [List.range_eq_range', Nat.sub_zero]

/-- The count accumulated by the task loop from any start value. -/
theorem foldl_stepAcc_count (lg : ℚ → ℚ) (data : List ℚ) (idxs : List ℕ) :
    ∀ a : Accum, (idxs.foldl (stepAcc lg data) a).count = a.count + idxs.length := by
  induction idxs with
  | nil =>
    intro a
    simp
  | cons x xs ih =>
    intro a
    rw [List.foldl_cons, ih]
    simp only [stepAcc]
    simp [List.length_cons]
    omega

/-- The sequential fold counts every element of the dataset. -/
theorem seqAcc_count (lg : ℚ → ℚ) (data : List ℚ) :
    (seqAcc lg data).count = data.length := by
  unfold seqAcc computeMetrics accOf
  rw [foldl_stepAcc_count]
  simp [Accum.zero]

/-- The task fold does not look past the first list when every index is in
bounds. -/
theorem accOf_append_data (lg : ℚ → ℚ) (l l2 : List ℚ) (idxs : List ℕ)
    (h : ∀ i ∈ idxs, i < l.length) :
    accOf lg (l ++ l2) idxs = accOf lg l idxs := by
  unfold accOf
  apply List.foldl_ext
  intro a i hi
  simp only [stepAcc]
  rw [List.getD_append _ _ _ _ (h i hi)]

/-- Reading the element just appended. -/
theorem getD_append_length (l : List ℚ) (a : ℚ) :
    (l ++ [a]).getD l.length 0 = a := by
  induction l with
  | nil => rfl
  | cons x xs ih => simp [ih]

/-- The sequential fold over a dataset extended by one element is the fold
over the prefix merged with the last loop iteration. -/
theorem seqAcc_concat (lg : ℚ → ℚ) (l : List ℚ) (a : ℚ) :
    seqAcc lg (l ++ [a]) =
      (seqAcc lg l).merge (stepAcc lg (l ++ [a]) Accum.zero l.length) := by
  unfold seqAcc computeMetrics
  simp only [List.length_append, List.length_singleton, Nat.sub_zero,
    ← List.range_eq_range']
  rw [List.range_succ, accOf_append]
  have h1 : accOf lg (l ++ [a]) (List.range l.length)
      = accOf lg l (List.range l.length) :=
    accOf_append_data lg l [a] (List.range l.length)
      fun i hi => List.mem_range.mp hi
  rw [h1]
  rfl

/-- The sequential fold sets the zero flag exactly when the dataset holds a
zero element. -/
theorem seqAcc_hasZero (lg : ℚ → ℚ) (data : List ℚ) :
    (seqAcc lg data).hasZero = data.any fun v => decide (v = 0) := by
  induction data using List.reverseRecOn with
  | nil => rfl
  | append_singleton l a ih =>
    rw [seqAcc_concat]
    simp only [Accum.merge]
    rw [ih]
    simp only [stepAcc, Accum.zero]
    rw [getD_append_length]
    simp [List.any_append]

/-- On a dataset without zero elements the sequential fold's log-sum is the
plain sum of `lg |v|` over all elements. -/
theorem seqAcc_logSum_no_zero (lg : ℚ → ℚ) (data : List ℚ)
    (h : ∀ v ∈ data, v ≠ 0) :
    (seqAcc lg data).logSum = (data.map fun v => lg |v|).sum := by
  induction data using List.reverseRecOn with
  | nil => rfl
  | append_singleton l a ih =>
    have hl : ∀ v ∈ l, v ≠ 0 := fun v hv => h v (List.mem_append_left _ hv)
    have ha : a ≠ 0 := h a (List.mem_append_right _ (List.mem_singleton_self a))
    rw [seqAcc_concat]
    simp only [Accum.merge]
    rw [ih hl]
    simp only [stepAcc, Accum.zero]
    rw [getD_append_length, if_neg ha]
    simp [List.map_append]

/-- A non-empty list is not `isEmpty`. -/
theorem isEmpty_false_of_ne (data : List ℚ) (hne : data ≠ []) :
    data.isEmpty = false := by
  cases data with
  | nil => exact absurd rfl hne
  | cons x xs => rfl

/-- On a non-empty dataset and an in-range parameter, `divideAndConquer` of
`src/main.cc` computes the final metrics of the sequential fold. -/
theorem dcRunA_valid (lg ex : ℚ → ℚ) (data : List ℚ) (splits : ℤ)
    (m s su : ℚ) (hne : data ≠ []) (h0 : 0 ≤ splits) (h32 : splits ≤ 32) :
    dcRunA lg ex data splits m s su = finalMetrics ex (seqAcc lg data) := by
  have hlen : 1 ≤ data.length := List.length_pos.mpr hne
  have hspec := dcParamsA_spec data.length splits.toNat hlen
  unfold dcRunA
  rw [isEmpty_false_of_ne data hne]
  simp only [Bool.false_eq_true, if_false]
  rw [if_neg (by omega), dcPlanA,
    globalAcc_partition_eq_seq lg data _ _ hspec.1 hspec.2.2]

/-- On a non-empty dataset and an in-range parameter, `divideAndConquer` of
the Qt variant computes the final metrics of the sequential fold. -/
theorem dcRunB_valid (lg ex : ℚ → ℚ) (data : List ℚ) (splits : ℤ)
    (m s su : ℚ) (hne : data ≠ []) (h0 : 0 ≤ splits) (h5 : splits ≤ 5) :
    dcRunB lg ex data splits m s su = finalMetrics ex (seqAcc lg data) := by
  have hlen : 1 ≤ data.length := List.length_pos.mpr hne
  have hspec := dcParamsB_spec data.length splits.toNat hlen
  unfold dcRunB
  rw [isEmpty_false_of_ne data hne]
  simp only [Bool.false_eq_true, if_false]
  rw [if_neg (by omega), dcPlanB,
    globalAcc_partition_eq_seq lg data _ _ hspec.1 hspec.2.2]

/-- On a non-empty dataset and an in-range worker count, `threadPool` of the
Qt variant computes the final metrics of the sequential fold. -/
theorem tpRun_valid (lg ex : ℚ → ℚ) (data : List ℚ) (numThreads : ℤ)
    (m s su : ℚ) (hne : data ≠ []) (h1 : 1 ≤ numThreads)
    (h32 : numThreads ≤ 32) :
    tpRun lg ex data numThreads m s su = finalMetrics ex (seqAcc lg data) := by
  have hlen : 1 ≤ data.length := List.length_pos.mpr hne
  have hn : 1 ≤ numThreads.toNat := by omega
  have hspec := tpParams_spec data.length numThreads.toNat hlen hn
  unfold tpRun
  rw [isEmpty_false_of_ne data hne]
  simp only [Bool.false_eq_true, if_false]
  rw [if_neg (by omega), tpPlan,
    globalAcc_partition_eq_seq lg data _ _ hspec.1 hspec.2.2]

/-- Final-metric extraction of the sequential fold of a non-empty dataset. -/
theorem finalMetrics_seq (lg ex : ℚ → ℚ) (data : List ℚ) (hne : data ≠ []) :
    finalMetrics ex (seqAcc lg data) =
      ( (seqAcc lg data).diffSum / (data.length : ℚ)
      , (seqAcc lg data).sum / 2
      , if (seqAcc lg data).hasZero then 0 else ex (seqAcc lg data).logSum ) := by
  have hlen : 1 ≤ data.length := List.length_pos.mpr hne
  unfold finalMetrics
  rw [seqAcc_count, if_pos (by omega : 0 < data.length)]

/-- The task fold counts exactly the indices it visits. -/
theorem accOf_count (lg : ℚ → ℚ) (data : List ℚ) (idxs : List ℕ) :
    (accOf lg data idxs).count = idxs.length := by
  unfold accOf
  rw [foldl_stepAcc_count]
  simp [Accum.zero]

/-- `divideAndConquer` of `src/main.cc` is idempotent as a transformer of
the by-reference metric triple. -/
theorem dcRunA_idem (lg ex : ℚ → ℚ) (data : List ℚ) (splits : ℤ)
    (t : ℚ × ℚ × ℚ) :
    dcRunA lg ex data splits (dcRunA lg ex data splits t.1 t.2.1 t.2.2).1
        (dcRunA lg ex data splits t.1 t.2.1 t.2.2).2.1
        (dcRunA lg ex data splits t.1 t.2.1 t.2.2).2.2
      = dcRunA lg ex data splits t.1 t.2.1 t.2.2 := by
  unfold dcRunA
  by_cases he : data.isEmpty = true
  · simp [he]
  · by_cases hv : splits < 0 ∨ 32 < splits
    · simp [he, hv]
    · simp [he, hv]

/-- `divideAndConquer` of the Qt variant is idempotent as a transformer of
the by-reference metric triple. -/
theorem dcRunB_idem (lg ex : ℚ → ℚ) (data : List ℚ) (splits : ℤ)
    (t : ℚ × ℚ × ℚ) :
    dcRunB lg ex data splits (dcRunB lg ex data splits t.1 t.2.1 t.2.2).1
        (dcRunB lg ex data splits t.1 t.2.1 t.2.2).2.1
        (dcRunB lg ex data splits t.1 t.2.1 t.2.2).2.2
      = dcRunB lg ex data splits t.1 t.2.1 t.2.2 := by
  unfold dcRunB
  by_cases he : data.isEmpty = true
  · simp [he]
  · by_cases hv : splits < 0 ∨ 5 < splits
    · simp [he, hv]
    · simp [he, hv]

/-- `threadPool` of the Qt variant is idempotent as a transformer of the
by-reference metric triple. -/
theorem tpRun_idem (lg ex : ℚ → ℚ) (data : List ℚ) (numThreads : ℤ)
    (t : ℚ × ℚ × ℚ) :
    tpRun lg ex data numThreads (tpRun lg ex data numThreads t.1 t.2.1 t.2.2).1
        (tpRun lg ex data numThreads t.1 t.2.1 t.2.2).2.1
        (tpRun lg ex data numThreads t.1 t.2.1 t.2.2).2.2
      = tpRun lg ex data numThreads t.1 t.2.1 t.2.2 := by
  unfold tpRun
  by_cases he : data.isEmpty = true
  · simp [he]
  · by_cases hv : numThreads < 1 ∨ 32 < numThreads
    · simp [he, hv]
    · simp [he, hv]

/-- Iterating an idempotent run one or more times yields the first run's
result. -/
theorem benchRuns_idem (f : ℚ × ℚ × ℚ → ℚ × ℚ × ℚ)
    (hf : ∀ t, f (f t) = f t) :
    ∀ n t, benchRuns f (n + 1) t = f t := by
  intro n
  induction n with
  | zero => intro t; rfl
  | succ m ih =>
    intro t
    show benchRuns f (m + 1) (f t) = f t
    rw [ih (f t), hf]

/-- C1: for every dataset and every in-range split parameter, after all
partition tasks of `divideAndConquer` (`src/main.cc`) have merged, the
global sum and diff-sum equal the sequential single-threaded fold over the
entire dataset in element order (exact arithmetic), hence the final metrics
`mode = diffSum / count` and `stddev = sum / 2` are values of the
sequential fold alone and agree for any two in-range partition
parameters. -/
theorem claimC1_seq_refinement (lg ex : ℚ → ℚ) (data : List ℚ)
    (d1 d2 : ℤ) (m s su : ℚ) (hne : data ≠ [])
    (h01 : 0 ≤ d1) (h321 : d1 ≤ 32) (h02 : 0 ≤ d2) (h322 : d2 ≤ 32) :
    (globalAcc lg data (dcPlanA data.length d1.toNat)).sum
        = (seqAcc lg data).sum ∧
      (globalAcc lg data (dcPlanA data.length d1.toNat)).diffSum
        = (seqAcc lg data).diffSum ∧
      (dcRunA lg ex data d1 m s su).1
        = (seqAcc lg data).diffSum / (data.length : ℚ) ∧
      (dcRunA lg ex data d1 m s su).2.1 = (seqAcc lg data).sum / 2 ∧
      (dcRunA lg ex data d1 m s su).1 = (dcRunA lg ex data d2 m s su).1 ∧
      (dcRunA lg ex data d1 m s su).2.1 = (dcRunA lg ex data d2 m s su).2.1 := by
  have hlen : 1 ≤ data.length := List.length_pos.mpr hne
  have hspec := dcParamsA_spec data.length d1.toNat hlen
  have hg : globalAcc lg data (dcPlanA data.length d1.toNat) = seqAcc lg data := by
    rw [dcPlanA]
    exact globalAcc_partition_eq_seq lg data _ _ hspec.1 hspec.2.2
  have hrun := dcRunA_valid lg ex data d1 m s su hne h01 h321
  have hrun2 := dcRunA_valid lg ex data d2 m s su hne h02 h322
  rw [finalMetrics_seq lg ex data hne] at hrun hrun2
  refine ⟨by rw [hg], by rw [hg], by rw [hrun], by rw [hrun], ?_, ?_⟩
  · rw [hrun, hrun2]
  · rw [hrun, hrun2]

/-- Witness for C1 at the dataset `[1, 2]` with split parameters 1 and 4
(2 and 16 partitions). -/
theorem claimC1_seq_refinement_witness :
    ([(1 : ℚ), 2] ≠ []) ∧ (0 : ℤ) ≤ 1 ∧ (1 : ℤ) ≤ 32 ∧ (0 : ℤ) ≤ 4 ∧ (4 : ℤ) ≤ 32 ∧
      ((globalAcc (fun _ => 0) [(1 : ℚ), 2] (dcPlanA 2 1)).sum
          = (seqAcc (fun _ => 0) [(1 : ℚ), 2]).sum ∧
        (globalAcc (fun _ => 0) [(1 : ℚ), 2] (dcPlanA 2 1)).diffSum
          = (seqAcc (fun _ => 0) [(1 : ℚ), 2]).diffSum ∧
        (dcRunA (fun _ => 0) (fun q => q + 1) [(1 : ℚ), 2] 1 0 0 0).1
          = (seqAcc (fun _ => 0) [(1 : ℚ), 2]).diffSum / ((2 : ℕ) : ℚ) ∧
        (dcRunA (fun _ => 0) (fun q => q + 1) [(1 : ℚ), 2] 1 0 0 0).2.1
          = (seqAcc (fun _ => 0) [(1 : ℚ), 2]).sum / 2 ∧
        (dcRunA (fun _ => 0) (fun q => q + 1) [(1 : ℚ), 2] 1 0 0 0).1
          = (dcRunA (fun _ => 0) (fun q => q + 1) [(1 : ℚ), 2] 4 0 0 0).1 ∧
        (dcRunA (fun _ => 0) (fun q => q + 1) [(1 : ℚ), 2] 1 0 0 0).2.1
          = (dcRunA (fun _ => 0) (fun q => q + 1) [(1 : ℚ), 2] 4 0 0 0).2.1) :=
  ⟨by decide, by decide, by decide, by decide, by decide,
    claimC1_seq_refinement (fun _ => 0) (fun q => q + 1) [(1 : ℚ), 2] 1 4 0 0 0
      (by decide) (by decide) (by decide) (by decide) (by decide)⟩

/-- C3: for every non-empty dataset and in-range parameters, the partition
ranges generated by both `divideAndConquer` variants and by `threadPool`
are contiguous, non-overlapping half-open ranges whose flattening in order
is exactly `[0, N)`, and the partition lengths sum to `N`. -/
theorem claimC3_partition_cover (data : List ℚ) (dA dB p : ℕ)
    (hne : data ≠ []) (hdA : dA ≤ 32) (hdB : dB ≤ 5)
    (hp1 : 1 ≤ p) (hp32 : p ≤ 32) :
    flatIdx (dcPlanA data.length dA) = List.range data.length ∧
      ((dcPlanA data.length dA).map fun r => r.2 - r.1).sum = data.length ∧
      flatIdx (dcPlanB data.length dB) = List.range data.length ∧
      ((dcPlanB data.length dB).map fun r => r.2 - r.1).sum = data.length ∧
      flatIdx (tpPlan data.length p) = List.range data.length ∧
      ((tpPlan data.length p).map fun r => r.2 - r.1).sum = data.length := by
  have hlen : 1 ≤ data.length := List.length_pos.mpr hne
  have hA := dcParamsA_spec data.length dA hlen
  have hB := dcParamsB_spec data.length dB hlen
  have hT := tpParams_spec data.length p hlen hp1
  have eA : flatIdx (dcPlanA data.length dA) = List.range data.length := by
    rw [dcPlanA]
    exact flatIdx_partitionRanges _ _ _ hA.1 hA.2.2
  have eB : flatIdx (dcPlanB data.length dB) = List.range data.length := by
    rw [dcPlanB]
    exact flatIdx_partitionRanges _ _ _ hB.1 hB.2.2
  have eT : flatIdx (tpPlan data.length p) = List.range data.length := by
    rw [tpPlan]
    exact flatIdx_partitionRanges _ _ _ hT.1 hT.2.2
  refine ⟨eA, ?_, eB, ?_, eT, ?_⟩
  · rw [← flatIdx_length, eA, List.length_range]
  · rw [← flatIdx_length, eB, List.length_range]
  · rw [← flatIdx_length, eT, List.length_range]

/-- Witness for C3 at the dataset `[1, 2, 3]` with split depth 1 for both
divide-and-conquer variants and 2 pool workers. -/
theorem claimC3_partition_cover_witness :
    ([(1 : ℚ), 2, 3] ≠ []) ∧ (1 : ℕ) ≤ 32 ∧ (1 : ℕ) ≤ 5 ∧
      (1 : ℕ) ≤ 2 ∧ (2 : ℕ) ≤ 32 ∧
      (flatIdx (dcPlanA 3 1) = List.range 3 ∧
        ((dcPlanA 3 1).map fun r => r.2 - r.1).sum = 3 ∧
        flatIdx (dcPlanB 3 1) = List.range 3 ∧
        ((dcPlanB 3 1).map fun r => r.2 - r.1).sum = 3 ∧
        flatIdx (tpPlan 3 2) = List.range 3 ∧
        ((tpPlan 3 2).map fun r => r.2 - r.1).sum = 3) :=
  ⟨by decide, by decide, by decide, by decide, by decide,
    claimC3_partition_cover [(1 : ℚ), 2, 3] 1 1 2
      (by decide) (by decide) (by decide) (by decide) (by decide)⟩

/-- C4: for every dataset (of any length `N`) and in-range parameters, the
global element count after all merges equals `N` under both strategies (and
both divide-and-conquer variants). -/
theorem claimC4_count (lg : ℚ → ℚ) (data : List ℚ) (dA dB p : ℕ)
    (hdA : dA ≤ 32) (hdB : dB ≤ 5) (hp1 : 1 ≤ p) (hp32 : p ≤ 32) :
    (globalAcc lg data (dcPlanA data.length dA)).count = data.length ∧
      (globalAcc lg data (dcPlanB data.length dB)).count = data.length ∧
      (globalAcc lg data (tpPlan data.length p)).count = data.length := by
  by_cases hne : data = []
  · subst hne
    simp only [List.length_nil]
    rw [dcPlanA, dcPlanB, tpPlan, dcParamsA_zero, dcParamsB_zero, tpParams_zero]
    exact ⟨rfl, rfl, rfl⟩
  · have hlen : 1 ≤ data.length := List.length_pos.mpr hne
    have hA := dcParamsA_spec data.length dA hlen
    have hB := dcParamsB_spec data.length dB hlen
    have hT := tpParams_spec data.length p hlen hp1
    have key : ∀ parts chunkSize : ℕ, 1 ≤ parts →
        parts * chunkSize ≤ data.length →
        (globalAcc lg data (partitionRanges data.length parts chunkSize)).count
          = data.length := by
      intro parts chunkSize h1 h3
      rw [globalAcc_eq_accOf, flatIdx_partitionRanges _ _ _ h1 h3, accOf_count,
        List.length_range]
    exact ⟨key _ _ hA.1 hA.2.2, key _ _ hB.1 hB.2.2, key _ _ hT.1 hT.2.2⟩

/-- Witness for C4 at the dataset `[5, 7]` with split depth 2 for both
divide-and-conquer variants and 3 pool workers. -/
theorem claimC4_count_witness :
    (2 : ℕ) ≤ 32 ∧ (2 : ℕ) ≤ 5 ∧ (1 : ℕ) ≤ 3 ∧ (3 : ℕ) ≤ 32 ∧
      ((globalAcc (fun _ => 0) [(5 : ℚ), 7] (dcPlanA 2 2)).count = 2 ∧
        (globalAcc (fun _ => 0) [(5 : ℚ), 7] (dcPlanB 2 2)).count = 2 ∧
        (globalAcc (fun _ => 0) [(5 : ℚ), 7] (tpPlan 2 3)).count = 2) :=
  ⟨by decide, by decide, by decide, by decide,
    claimC4_count (fun _ => 0) [(5 : ℚ), 7] 2 2 3
      (by decide) (by decide) (by decide) (by decide)⟩

/-- C7: on an empty dataset both executors return `(0, 0, 0)` for every
strategy and every parameter value, in-range or not, regardless of the
caller-supplied metric values: the short-circuit fires before any
partition is planned. -/
theorem claimC7_empty_dataset (lg ex : ℚ → ℚ) (d p : ℤ) (m s su : ℚ) :
    dcRunA lg ex [] d m s su = (0, 0, 0) ∧
      dcRunB lg ex [] d m s su = (0, 0, 0) ∧
      tpRun lg ex [] p m s su = (0, 0, 0) :=
  ⟨rfl, rfl, rfl⟩

/-- C6: on a non-empty dataset, an out-of-range parameter makes each
executor report its validation error and leave the by-reference output
metrics unchanged at their caller-supplied values. -/
theorem claimC6_validation (lg ex : ℚ → ℚ) (data : List ℚ) (d32 d5 p : ℤ)
    (m s su : ℚ) (hne : data ≠ [])
    (hd32 : d32 < 0 ∨ 32 < d32) (hd5 : d5 < 0 ∨ 5 < d5)
    (hp : p < 1 ∨ 32 < p) :
    (dcReportsErrorA data d32 = true ∧
        dcRunA lg ex data d32 m s su = (m, s, su)) ∧
      (dcReportsErrorB data d5 = true ∧
        dcRunB lg ex data d5 m s su = (m, s, su)) ∧
      (tpReportsError data p = true ∧
        tpRun lg ex data p m s su = (m, s, su)) := by
  have hie := isEmpty_false_of_ne data hne
  refine ⟨⟨?_, ?_⟩, ⟨?_, ?_⟩, ⟨?_, ?_⟩⟩
  · rw [dcReportsErrorA, hie]
    simp only [Bool.not_false, Bool.true_and, Bool.or_eq_true, decide_eq_true_eq]
    exact hd32
  · unfold dcRunA
    rw [hie]
    simp only [Bool.false_eq_true, if_false]
    rw [if_pos hd32]
  · rw [dcReportsErrorB, hie]
    simp only [Bool.not_false, Bool.true_and, Bool.or_eq_true, decide_eq_true_eq]
    exact hd5
  · unfold dcRunB
    rw [hie]
    simp only [Bool.false_eq_true, if_false]
    rw [if_pos hd5]
  · rw [tpReportsError, hie]
    simp only [Bool.not_false, Bool.true_and, Bool.or_eq_true, decide_eq_true_eq]
    exact hp
  · unfold tpRun
    rw [hie]
    simp only [Bool.false_eq_true, if_false]
    rw [if_pos hp]

/-- Witness for C6 at the dataset `[3]` with out-of-range parameters 33
(src/main.cc split depth), 6 (Qt split depth) and 0 (worker count), and
caller-supplied metric values `(4, 5, 6)`. -/
theorem claimC6_validation_witness :
    ([(3 : ℚ)] ≠ []) ∧ ((33 : ℤ) < 0 ∨ (32 : ℤ) < 33) ∧
      ((6 : ℤ) < 0 ∨ (5 : ℤ) < 6) ∧ ((0 : ℤ) < 1 ∨ (32 : ℤ) < 0) ∧
      ((dcReportsErrorA [(3 : ℚ)] 33 = true ∧
          dcRunA (fun _ => 0) (fun q => q + 1) [(3 : ℚ)] 33 4 5 6 = (4, 5, 6)) ∧
        (dcReportsErrorB [(3 : ℚ)] 6 = true ∧
          dcRunB (fun _ => 0) (fun q => q + 1) [(3 : ℚ)] 6 4 5 6 = (4, 5, 6)) ∧
        (tpReportsError [(3 : ℚ)] 0 = true ∧
          tpRun (fun _ => 0) (fun q => q + 1) [(3 : ℚ)] 0 4 5 6 = (4, 5, 6))) :=
  ⟨by decide, by decide, by decide, by decide,
    claimC6_validation (fun _ => 0) (fun q => q + 1) [(3 : ℚ)] 33 6 0 4 5 6
      (by decide) (by decide) (by decide) (by decide)⟩

/-- C10: both executors check for the empty dataset before validating the
parameter: an empty dataset together with an out-of-range parameter yields
`(0, 0, 0)` and no validation error is reported. -/
theorem claimC10_empty_before_validation (lg ex : ℚ → ℚ) (d32 d5 p : ℤ)
    (m s su : ℚ) (hd32 : d32 < 0 ∨ 32 < d32) (hd5 : d5 < 0 ∨ 5 < d5)
    (hp : p < 1 ∨ 32 < p) :
    (dcRunA lg ex [] d32 m s su = (0, 0, 0) ∧ dcReportsErrorA [] d32 = false) ∧
      (dcRunB lg ex [] d5 m s su = (0, 0, 0) ∧ dcReportsErrorB [] d5 = false) ∧
      (tpRun lg ex [] p m s su = (0, 0, 0) ∧ tpReportsError [] p = false) :=
  ⟨⟨rfl, rfl⟩, ⟨rfl, rfl⟩, ⟨rfl, rfl⟩⟩

/-- Witness for C10 with out-of-range parameters 40, 6 and 33 on the empty
dataset. -/
theorem claimC10_empty_before_validation_witness :
    ((40 : ℤ) < 0 ∨ (32 : ℤ) < 40) ∧ ((6 : ℤ) < 0 ∨ (5 : ℤ) < 6) ∧
      ((33 : ℤ) < 1 ∨ (32 : ℤ) < 33) ∧
      ((dcRunA (fun _ => 0) (fun q => q + 1) [] 40 7 8 9 = (0, 0, 0) ∧
          dcReportsErrorA [] 40 = false) ∧
        (dcRunB (fun _ => 0) (fun q => q + 1) [] 6 7 8 9 = (0, 0, 0) ∧
          dcReportsErrorB [] 6 = false) ∧
        (tpRun (fun _ => 0) (fun q => q + 1) [] 33 7 8 9 = (0, 0, 0) ∧
          tpReportsError [] 33 = false)) :=
  ⟨by decide, by decide, by decide,
    claimC10_empty_before_validation (fun _ => 0) (fun q => q + 1) 40 6 33 7 8 9
      (by decide) (by decide) (by decide)⟩

/-- C9: the embedded run functions are deterministic and overwrite the
metric triple identically on every repetition: for each strategy, the value
of the by-reference metric triple after `i` of the harness's 5 runs
(`1 ≤ i ≤ 5`) equals its value after the first run. -/
theorem claimC9_determinism (lg ex : ℚ → ℚ) (data : List ℚ) (d32 d5 p : ℤ)
    (init : ℚ × ℚ × ℚ) (i : ℕ) (h1 : 1 ≤ i) (h5 : i ≤ 5) :
    benchRuns (fun t => dcRunA lg ex data d32 t.1 t.2.1 t.2.2) i init
        = benchRuns (fun t => dcRunA lg ex data d32 t.1 t.2.1 t.2.2) 1 init ∧
      benchRuns (fun t => dcRunB lg ex data d5 t.1 t.2.1 t.2.2) i init
        = benchRuns (fun t => dcRunB lg ex data d5 t.1 t.2.1 t.2.2) 1 init ∧
      benchRuns (fun t => tpRun lg ex data p t.1 t.2.1 t.2.2) i init
        = benchRuns (fun t => tpRun lg ex data p t.1 t.2.1 t.2.2) 1 init := by
  obtain ⟨j, rfl⟩ : ∃ j, i = j + 1 := ⟨i - 1, by omega⟩
  exact ⟨benchRuns_idem _ (dcRunA_idem lg ex data d32) j init,
    benchRuns_idem _ (dcRunB_idem lg ex data d5) j init,
    benchRuns_idem _ (tpRun_idem lg ex data p) j init⟩

/-- Witness for C9: the fifth run of each strategy on the dataset `[1]`
reports the same metrics as the first. -/
theorem claimC9_determinism_witness :
    (1 : ℕ) ≤ 5 ∧ (5 : ℕ) ≤ 5 ∧
      (benchRuns (fun t => dcRunA (fun _ => 0) (fun q => q + 1) [(1 : ℚ)] 2 t.1 t.2.1 t.2.2) 5 (9, 9, 9)
          = benchRuns (fun t => dcRunA (fun _ => 0) (fun q => q + 1) [(1 : ℚ)] 2 t.1 t.2.1 t.2.2) 1 (9, 9, 9) ∧
        benchRuns (fun t => dcRunB (fun _ => 0) (fun q => q + 1) [(1 : ℚ)] 1 t.1 t.2.1 t.2.2) 5 (9, 9, 9)
          = benchRuns (fun t => dcRunB (fun _ => 0) (fun q => q + 1) [(1 : ℚ)] 1 t.1 t.2.1 t.2.2) 1 (9, 9, 9) ∧
        benchRuns (fun t => tpRun (fun _ => 0) (fun q => q + 1) [(1 : ℚ)] 3 t.1 t.2.1 t.2.2) 5 (9, 9, 9)
          = benchRuns (fun t => tpRun (fun _ => 0) (fun q => q + 1) [(1 : ℚ)] 3 t.1 t.2.1 t.2.2) 1 (9, 9, 9)) :=
  ⟨by decide, by decide,
    claimC9_determinism (fun _ => 0) (fun q => q + 1) [(1 : ℚ)] 2 1 3 (9, 9, 9) 5
      (by decide) (by decide)⟩

/-- C2 counterexample: the claim quantifies over every dataset, but on the
empty dataset — which has no zero element — the `sum` output of both
executors is 0, while the exponential of the empty log-sum is `exp 0 = 1`
(`ex := fun q => q + 1` agrees with the real exponential at 0). -/
theorem claimC2_product_metric_counterexample :
    (∀ v ∈ ([] : List ℚ), v ≠ 0) ∧
      (dcRunA (fun _ => 0) (fun q => q + 1) [] 0 0 0 0).2.2 = 0 ∧
      (tpRun (fun _ => 0) (fun q => q + 1) [] 1 0 0 0).2.2 = 0 ∧
      (fun q : ℚ => q + 1)
          ((([] : List ℚ).map fun v => (fun _ : ℚ => (0 : ℚ)) |v|).sum) = 1 ∧
      (0 : ℚ) ≠ 1 :=
  ⟨by simp, rfl, rfl, by simp, by norm_num⟩

/-- C2 (amended): for every non-empty dataset and in-range parameters, if
some element is zero then the product-style `sum` output of both
`divideAndConquer` variants and of `threadPool` is exactly 0, and if no
element is zero then it is `ex` applied to the sum of `lg |v|` over all
elements, as the sequential single-threaded fold produces. -/
theorem claimC2_product_metric (lg ex : ℚ → ℚ) (data : List ℚ)
    (d32 d5 p : ℤ) (m s su : ℚ) (hne : data ≠ [])
    (h032 : 0 ≤ d32) (h32 : d32 ≤ 32) (h05 : 0 ≤ d5) (h5 : d5 ≤ 5)
    (hp1 : 1 ≤ p) (hp32 : p ≤ 32) :
    ((∃ v ∈ data, v = 0) →
        (dcRunA lg ex data d32 m s su).2.2 = 0 ∧
        (dcRunB lg ex data d5 m s su).2.2 = 0 ∧
        (tpRun lg ex data p m s su).2.2 = 0) ∧
      ((∀ v ∈ data, v ≠ 0) →
        (dcRunA lg ex data d32 m s su).2.2
            = ex ((data.map fun v => lg |v|).sum) ∧
        (dcRunB lg ex data d5 m s su).2.2
            = ex ((data.map fun v => lg |v|).sum) ∧
        (tpRun lg ex data p m s su).2.2
            = ex ((data.map fun v => lg |v|).sum)) := by
  have hA := dcRunA_valid lg ex data d32 m s su hne h032 h32
  have hB := dcRunB_valid lg ex data d5 m s su hne h05 h5
  have hT := tpRun_valid lg ex data p m s su hne hp1 hp32
  rw [finalMetrics_seq lg ex data hne] at hA hB hT
  constructor
  · intro hz
    have hzb : (seqAcc lg data).hasZero = true := by
      rw [seqAcc_hasZero]
      simp only [List.any_eq_true, decide_eq_true_eq]
      exact hz
    rw [hA, hB, hT]
    simp [hzb]
  · intro hnz
    have hzb : (seqAcc lg data).hasZero = false := by
      rw [seqAcc_hasZero]
      simp only [List.any_eq_false, decide_eq_true_eq]
      exact hnz
    rw [hA, hB, hT, ← seqAcc_logSum_no_zero lg data hnz]
    simp [hzb]

/-- Witness for the amended C2 at the datasets implicit in `[0, 3]` (zero
present): the `sum` outputs are 0; the no-zero branch holds vacuously and
is also exercised through the hypotheses at `[2]` by the sequential fold —
here instantiated at `[0, 3]` with split depths 1, 1 and 2 workers. -/
theorem claimC2_product_metric_witness :
    ([(0 : ℚ), 3] ≠ []) ∧ (0 : ℤ) ≤ 1 ∧ (1 : ℤ) ≤ 32 ∧ (0 : ℤ) ≤ 1 ∧
      (1 : ℤ) ≤ 5 ∧ (1 : ℤ) ≤ 2 ∧ (2 : ℤ) ≤ 32 ∧
      (((∃ v ∈ [(0 : ℚ), 3], v = 0) →
          (dcRunA (fun _ => 0) (fun q => q + 1) [(0 : ℚ), 3] 1 0 0 0).2.2 = 0 ∧
          (dcRunB (fun _ => 0) (fun q => q + 1) [(0 : ℚ), 3] 1 0 0 0).2.2 = 0 ∧
          (tpRun (fun _ => 0) (fun q => q + 1) [(0 : ℚ), 3] 2 0 0 0).2.2 = 0) ∧
        ((∀ v ∈ [(0 : ℚ), 3], v ≠ 0) →
          (dcRunA (fun _ => 0) (fun q => q + 1) [(0 : ℚ), 3] 1 0 0 0).2.2
              = (fun q : ℚ => q + 1)
                  (([(0 : ℚ), 3].map fun v => (fun _ : ℚ => (0 : ℚ)) |v|).sum) ∧
          (dcRunB (fun _ => 0) (fun q => q + 1) [(0 : ℚ), 3] 1 0 0 0).2.2
              = (fun q : ℚ => q + 1)
                  (([(0 : ℚ), 3].map fun v => (fun _ : ℚ => (0 : ℚ)) |v|).sum) ∧
          (tpRun (fun _ => 0) (fun q => q + 1) [(0 : ℚ), 3] 2 0 0 0).2.2
              = (fun q : ℚ => q + 1)
                  (([(0 : ℚ), 3].map fun v => (fun _ : ℚ => (0 : ℚ)) |v|).sum))) :=
  ⟨by decide, by decide, by decide, by decide, by decide, by decide, by decide,
    claimC2_product_metric (fun _ => 0) (fun q => q + 1) [(0 : ℚ), 3] 1 1 2 0 0 0
      (by decide) (by decide) (by decide) (by decide) (by decide)
      (by decide) (by decide)⟩

/-- C5 counterexample: in `divideAndConquer` of `src/main.cc` with
`N = 100` and split depth 7 the requested part count is `128 > N`, so
`chunk_size = 100 / 128 = 0`, yet the effective part count is clamped to
16, not to `N = 100`. -/
theorem claimC5_clamp_counterexample :
    (100 : ℕ) / 128 = 0 ∧ dcParamsA 100 7 = (16, 6) ∧ (16 : ℕ) ≠ 100 :=
  ⟨rfl, by decide, by decide⟩

/-- C5 (amended): when `chunk_size = N / P` is zero, the Qt variant's
`divideAndConquer` and `threadPool` clamp the part count to exactly `N`
with `chunk_size = 1 = N / N`; `divideAndConquer` of `src/main.cc` instead
clamps to `min(N, 16)` — also whenever `P > 16` — recomputing
`chunk_size = N / min(N, 16)`; under either policy, on a non-empty dataset
with an in-range parameter every generated partition holds at least one
element. -/
theorem claimC5_clamp (data : List ℚ) (dA dB p : ℕ)
    (hne : data ≠ []) (hdA : dA ≤ 32) (hdB : dB ≤ 5)
    (hp1 : 1 ≤ p) (hp32 : p ≤ 32) :
    (data.length / (if dB = 0 then 1 else 2 ^ dB) = 0 →
        dcParamsB data.length dB = (data.length, 1)) ∧
      (data.length / p = 0 → tpParams data.length p = (data.length, 1)) ∧
      (data.length / (if dA = 0 then 1 else 2 ^ dA) = 0 ∨
          (if dA = 0 then 1 else 2 ^ dA) > 16 →
        dcParamsA data.length dA
          = (min data.length 16, data.length / min data.length 16)) ∧
      (∀ r ∈ dcPlanA data.length dA, r.1 < r.2) ∧
      (∀ r ∈ dcPlanB data.length dB, r.1 < r.2) ∧
      (∀ r ∈ tpPlan data.length p, r.1 < r.2) := by
  have hlen : 1 ≤ data.length := List.length_pos.mpr hne
  have hA := dcParamsA_spec data.length dA hlen
  have hB := dcParamsB_spec data.length dB hlen
  have hT := tpParams_spec data.length p hlen hp1
  refine ⟨?_, ?_, ?_, ?_, ?_, ?_⟩
  · intro hc
    rw [dcParamsB_eq, if_pos hc]
  · intro hc
    rw [tpParams_eq, if_pos hc]
  · intro hc
    rw [dcParamsA_eq, if_pos hc]
  · exact partitionRanges_nonempty _ _ _ hA.1 hA.2.1 hA.2.2
  · exact partitionRanges_nonempty _ _ _ hB.1 hB.2.1 hB.2.2
  · exact partitionRanges_nonempty _ _ _ hT.1 hT.2.1 hT.2.2

/-- Witness for the amended C5 at the dataset `[1, 2, 3]` (`N = 3`) with
split depth 2 (4 requested parts, so `chunk_size = 0` triggers the clamp)
and 5 requested workers. -/
theorem claimC5_clamp_witness :
    ([(1 : ℚ), 2, 3] ≠ []) ∧ (2 : ℕ) ≤ 32 ∧ (2 : ℕ) ≤ 5 ∧
      (1 : ℕ) ≤ 5 ∧ (5 : ℕ) ≤ 32 ∧
      (((3 : ℕ) / (if (2 : ℕ) = 0 then 1 else 2 ^ (2 : ℕ)) = 0 →
          dcParamsB 3 2 = (3, 1)) ∧
        ((3 : ℕ) / 5 = 0 → tpParams 3 5 = (3, 1)) ∧
        ((3 : ℕ) / (if (2 : ℕ) = 0 then 1 else 2 ^ (2 : ℕ)) = 0 ∨
            (if (2 : ℕ) = 0 then 1 else 2 ^ (2 : ℕ)) > 16 →
          dcParamsA 3 2 = (min 3 16, 3 / min 3 16)) ∧
        (∀ r ∈ dcPlanA 3 2, r.1 < r.2) ∧
        (∀ r ∈ dcPlanB 3 2, r.1 < r.2) ∧
        (∀ r ∈ tpPlan 3 5, r.1 < r.2)) :=
  ⟨by decide, by decide, by decide, by decide, by decide,
    claimC5_clamp [(1 : ℚ), 2, 3] 2 2 5
      (by decide) (by decide) (by decide) (by decide) (by decide)⟩

/-- C8 counterexample: with the valid split depth 5 on the program's fixed
100-element dataset, `main` of `src/main.cc` prints `Hilos: 5` on the
console and persists `32` to `results.csv`, while the effective partition
count actually used after clamping is 16. -/
theorem claimC8_reported_threads_counterexample :
    consoleThreadsA 5 = 5 ∧ csvThreadsA 5 = 32 ∧ (dcParamsA 100 5).1 = 16 ∧
      (32 : ℤ) ≠ 16 ∧ (5 : ℤ) ≠ 16 :=
  ⟨rfl, by decide, by decide, by decide, by decide⟩

/-- C8 (amended): in the Qt variant the reported thread count is the raw
requested partition/worker count, which on that program's fixed
100-element dataset equals the effective post-clamp count for every
in-range parameter; in `src/main.cc`, for every split depth `d ≥ 5` the
effective partition count is 16, the value `2^d` persisted to the results
log always differs from it, and the raw depth `d` printed on the console
differs from it for every such `d` except `d = 16`, where the printed
depth numerically coincides with the effective count. -/
theorem claimC8_reported_threads (d5 p dA : ℤ)
    (h05 : 0 ≤ d5) (h5 : d5 ≤ 5) (hp1 : 1 ≤ p) (hp32 : p ≤ 32)
    (h5A : 5 ≤ dA) (h32A : dA ≤ 32) :
    reportedThreadsBdc d5 = ((dcParamsB 100 d5.toNat).1 : ℤ) ∧
      reportedThreadsBtp p = ((tpParams 100 p.toNat).1 : ℤ) ∧
      (dcParamsA 100 dA.toNat).1 = 16 ∧
      csvThreadsA dA ≠ ((dcParamsA 100 dA.toNat).1 : ℤ) ∧
      (dA ≠ 16 → consoleThreadsA dA ≠ ((dcParamsA 100 dA.toNat).1 : ℤ)) ∧
      consoleThreadsA 16 = ((dcParamsA 100 (16 : ℤ).toNat).1 : ℤ) := by
  have hk : 5 ≤ dA.toNat := by omega
  have hne0 : ¬ (dA.toNat = 0) := by omega
  have hpow32 : (32 : ℕ) ≤ 2 ^ dA.toNat := by
    calc (32 : ℕ) = 2 ^ 5 := by norm_num
      _ ≤ 2 ^ dA.toNat := Nat.pow_le_pow_right (by norm_num) hk
  have heff : (dcParamsA 100 dA.toNat).1 = 16 := by
    rw [dcParamsA_eq]
    simp only [if_neg hne0]
    rw [if_pos (Or.inr (by omega : 2 ^ dA.toNat > 16))]
    decide
  refine ⟨?_, ?_, heff, ?_, ?_, by decide⟩
  · interval_cases d5 <;> decide
  · have hb : 0 < 100 / p.toNat := Nat.div_pos (by omega) (by omega)
    rw [tpParams_eq, if_neg (by omega)]
    show p = ((p.toNat : ℕ) : ℤ)
    omega
  · rw [heff]
    unfold csvThreadsA
    rw [if_neg (by omega : ¬ dA = 0)]
    have hz : (32 : ℤ) ≤ (2 : ℤ) ^ dA.toNat := by exact_mod_cast hpow32
    intro hEq
    rw [hEq] at hz
    norm_num at hz
  · intro h16
    rw [heff]
    show dA ≠ ((16 : ℕ) : ℤ)
    omega

/-- Witness for the amended C8 at split depth 3 and worker count 8 for the
Qt variant and split depth 7 for `src/main.cc`. -/
theorem claimC8_reported_threads_witness :
    (0 : ℤ) ≤ 3 ∧ (3 : ℤ) ≤ 5 ∧ (1 : ℤ) ≤ 8 ∧ (8 : ℤ) ≤ 32 ∧
      (5 : ℤ) ≤ 7 ∧ (7 : ℤ) ≤ 32 ∧
      (reportedThreadsBdc 3 = ((dcParamsB 100 (3 : ℤ).toNat).1 : ℤ) ∧
        reportedThreadsBtp 8 = ((tpParams 100 (8 : ℤ).toNat).1 : ℤ) ∧
        (dcParamsA 100 (7 : ℤ).toNat).1 = 16 ∧
        csvThreadsA 7 ≠ ((dcParamsA 100 (7 : ℤ).toNat).1 : ℤ) ∧
        ((7 : ℤ) ≠ 16 → consoleThreadsA 7 ≠ ((dcParamsA 100 (7 : ℤ).toNat).1 : ℤ)) ∧
        consoleThreadsA 16 = ((dcParamsA 100 (16 : ℤ).toNat).1 : ℤ)) :=
  ⟨by decide, by decide, by decide, by decide, by decide, by decide,
    claimC8_reported_threads 3 8 7 (by decide) (by decide) (by decide)
      (by decide) (by decide) (by decide)⟩
